import Mathlib

/-!
Verification of the waveform library (`balderhub.waveform.lib.utils.waveforms`).

Embedding conventions:
* Normalized samples and voltage values are rationals (`ℚ`), the usual
  idealization of the Python floats.
* The phase of a periodic waveform is stored in *turns*: a stored value `t`
  stands for the Python phase `2π * t` radians.  The constructor's
  `phase % (2 * np.pi)` is then `Int.fract t`, and the split index
  `int(len * (phase % 2π) / 2π)` of `get_data_in_volts` is `⌊len * Int.fract t⌋`.
* The numeric library calls the spec declares out of scope (scipy's `resample`,
  `correlate`, `find_peaks`, `detrend`) enter as an explicit `Prims` record of
  functions; the repository's own code is embedded directly.
* Every `raise ValueError(...)` site gets its own constructor of `WErr`, and a
  fallible operation returns `Except WErr`.  Python's `max()`/`min()` on an
  empty sequence also raises; that is `WErr.emptySeq`.
* `rel_var` of the periodicity extraction averages per-column standard
  deviations (`np.std`), so it lives in `ℝ` via `Real.sqrt`; all the control
  flow around it is embedded exactly.
-/

/-- Python's built-in `max` over a non-empty sequence; `0` is a junk value for
the empty list (the code raises there, handled separately). -/
def listMax : List ℚ → ℚ
  | [] => 0
  | [x] => x
  | x :: y :: r => max x (listMax (y :: r))

/-- Python's built-in `min` over a non-empty sequence; `0` is a junk value for
the empty list. -/
def listMin : List ℚ → ℚ
  | [] => 0
  | [x] => x
  | x :: y :: r => min x (listMin (y :: r))

/-- Arithmetic mean, `np.mean`.  For the empty list this is `0` (division by
zero in `ℚ`); the code never takes a mean of an empty array on the paths the
claims cover. -/
def meanQ (l : List ℚ) : ℚ := l.sum / l.length

/-- Index of the first maximal element, `np.argmax` (`0` for the empty list). -/
def argmaxIdx (l : List ℚ) : ℕ :=
  (l.foldl
    (fun acc x =>
      if acc.2.2 < x then (acc.2.1, acc.2.1 + 1, x) else (acc.1, acc.2.1 + 1, acc.2.2))
    ((0 : ℕ), (0 : ℕ), l.headD 0)).1

/-- Round half to even on `ℚ`, the rounding mode of Python's `round` and of
`np.round`. -/
def roundHalfEven (q : ℚ) : ℤ :=
  if q - ⌊q⌋ < 1 / 2 then ⌊q⌋
  else if 1 / 2 < q - ⌊q⌋ then ⌊q⌋ + 1
  else if 2 ∣ ⌊q⌋ then ⌊q⌋ else ⌊q⌋ + 1

/-- Rounding to 6 decimal digits, `np.round(x, decimals=6)`. -/
def roundTo6 (q : ℚ) : ℚ := (roundHalfEven (q * 1000000) : ℚ) / 1000000

/-- Python's `int(...)` truncation as used for the resampled sample count
`int(len(data) * float(delta / interval))`; for the non-negative ratios that
positive intervals produce this is the floor. -/
def resampleCount (n : ℕ) (delta interval : ℚ) : ℕ :=
  (⌊(n : ℚ) * (delta / interval)⌋).toNat

/-- The error taxonomy: one constructor per `raise ValueError(...)` site of the
source (all of them raise the same Python class, distinguished by message). -/
inductive WErr where
  /-- `data values needs to be between -1 and 1, but is between {min} and {max}`
  (`AbstractWaveform._validate_data`); carries the reported min and max. -/
  | invalidData (lo hi : ℚ)
  /-- Python's own `max() arg is an empty sequence` from `_validate_data` on an
  empty array. -/
  | emptySeq
  /-- `can not resample data, because no data point would be there with the new
  interval time` (`BasePeriodicWaveform.get_resampled_version`). -/
  | resampleZero
  /-- `Not enough samples to reliably detect periodicity.` -/
  | insufficientData
  /-- `No significant periodic component detected.` -/
  | noPeriodicity
  /-- `Could not find a consistent periodic pattern.` -/
  | noConsistentPeriod
deriving DecidableEq

/-- State of `BasePeriodicWaveform` (a `CustomPeriodicWaveform` carries exactly
these fields plus its data array).  `phase` is in turns, see the file header. -/
structure PeriodicWaveform where
  data : List ℚ
  frequencyHz : ℚ
  amplitudeVpp : ℚ
  offsetVdc : ℚ
  phase : ℚ
deriving DecidableEq

/-- State of `BaseNonPeriodicWaveform` / `CustomNonPeriodicWaveform`. -/
structure NonPeriodicWaveform where
  data : List ℚ
  multiplierAmplitudeVolt : ℚ
  deltaTimeSec : ℚ
  offsetVdc : ℚ
deriving DecidableEq

/-- The two concrete waveform kinds, for the polymorphic `compare`. -/
inductive Waveform where
  | periodic (w : PeriodicWaveform)
  | nonPeriodic (w : NonPeriodicWaveform)
deriving DecidableEq

/-- The value `get_phase_difference_to` actually produces: a phase (in turns
here), Python's `None`, or Python's `False` — the source returns the *boolean*
`False` on the amplitude/frequency mismatch and degenerate-alignment paths. -/
inductive PhaseRes where
  | none
  | fls
  | val (turns : ℚ)
deriving DecidableEq

/-- The external numeric primitives (spec §6: resampling, correlation,
peak-finding, detrending are consumed interfaces, not part of this core). -/
structure Prims where
  /-- `scipy.signal.resample data n`: band-limited resampling to `n` points. -/
  resample : List ℚ → ℕ → List ℚ
  /-- `numpy.ma.core.correlate a b mode='valid'`. -/
  correlateValid : List ℚ → List ℚ → List ℚ
  /-- `scipy.signal.correlate a b mode='full'`. -/
  correlateFull : List ℚ → List ℚ → List ℚ
  /-- `scipy.signal.find_peaks xs height prominence distance`, returning peak
  indices. -/
  findPeaks : List ℚ → ℚ → ℚ → ℕ → List ℕ
  /-- `scipy.signal.detrend`. -/
  detrend : List ℚ → List ℚ

instance {ε α : Type} [DecidableEq ε] [DecidableEq α] : DecidableEq (Except ε α) := fun a b =>
  match a, b with
  | .error x, .error y =>
      if h : x = y then isTrue (by simp [h]) else isFalse (by simp [h])
  | .ok x, .ok y =>
      if h : x = y then isTrue (by simp [h]) else isFalse (by simp [h])
  | .error _, .ok _ => isFalse (by simp)
  | .ok _, .error _ => isFalse (by simp)

/-- `AbstractWaveform._validate_data`: raises when `max(data) > 1 or
min(data) < -1`; on an empty array Python's `max` itself raises. -/
def validateData (data : List ℚ) : Except WErr Unit :=
  match data with
  | [] => .error .emptySeq
  | _ =>
      if 1 < listMax data ∨ listMin data < -1 then
        .error (.invalidData (listMin data) (listMax data))
      else .ok ()

/-- `CustomPeriodicWaveform.__init__`: stores the parameters (normalizing the
phase into one turn, the source's `phase % (2 * np.pi)`) and validates the
data. -/
def mkCustomPeriodicWaveform (data : List ℚ) (frequencyHz amplitudeVpp offsetVdc phase : ℚ) :
    Except WErr PeriodicWaveform :=
  match validateData data with
  | .error e => .error e
  | .ok _ => .ok ⟨data, frequencyHz, amplitudeVpp, offsetVdc, Int.fract phase⟩

/-- `CustomNonPeriodicWaveform.__init__`. -/
def mkCustomNonPeriodicWaveform (data : List ℚ) (multiplierAmplitudeVolt deltaTimeSec offsetVdc : ℚ) :
    Except WErr NonPeriodicWaveform :=
  match validateData data with
  | .error e => .error e
  | .ok _ => .ok ⟨data, multiplierAmplitudeVolt, deltaTimeSec, offsetVdc⟩

/-- `BasePeriodicWaveform.delta_time_sec = (1 / frequency_hz) / len(data)`. -/
def periodicDeltaTimeSec (w : PeriodicWaveform) : ℚ :=
  (1 / w.frequencyHz) / w.data.length

/-- The split index of `BasePeriodicWaveform.get_data_in_volts`:
`int(len(data) * (phase % 2π) / 2π)` — in turns, `⌊len * Int.fract phase⌋`
(Python `int()` truncates; the operand is non-negative). -/
def splitIndex (w : PeriodicWaveform) : ℕ :=
  (⌊(w.data.length : ℚ) * Int.fract w.phase⌋).toNat

/-- `BasePeriodicWaveform.get_data_in_volts`: cyclically rotate the one-cycle
buffer at `splitIndex`, then scale `* amplitude_vpp / 2 - offset_vdc`. -/
def periodicGetDataInVolts (w : PeriodicWaveform) : List ℚ :=
  (w.data.drop (splitIndex w) ++ w.data.take (splitIndex w)).map
    (fun x => x * w.amplitudeVpp / 2 - w.offsetVdc)

/-- `BaseNonPeriodicWaveform.get_data_in_volts`:
`data * multiplier_amplitude_volt - offset_vdc` (the source subtracts). -/
def nonPeriodicGetDataInVolts (w : NonPeriodicWaveform) : List ℚ :=
  w.data.map (fun x => x * w.multiplierAmplitudeVolt - w.offsetVdc)

/-- `BasePeriodicWaveform.get_resampled_version`: raises on a zero new sample
count, else resamples, rounds to 6 decimals and rebuilds a
`CustomPeriodicWaveform` with the same parameters. -/
def periodicGetResampledVersion (P : Prims) (w : PeriodicWaveform) (intervalSec : ℚ) :
    Except WErr PeriodicWaveform :=
  let cnt := resampleCount w.data.length (periodicDeltaTimeSec w) intervalSec
  if cnt = 0 then .error .resampleZero
  else
    mkCustomPeriodicWaveform ((P.resample w.data cnt).map roundTo6)
      w.frequencyHz w.amplitudeVpp w.offsetVdc w.phase

/-- `BaseNonPeriodicWaveform.get_resampled_version`: no zero-count check in the
source; resamples, rounds and rebuilds a `CustomNonPeriodicWaveform` whose
`delta_time_sec` is the requested interval. -/
def nonPeriodicGetResampledVersion (P : Prims) (w : NonPeriodicWaveform) (intervalSec : ℚ) :
    Except WErr NonPeriodicWaveform :=
  mkCustomNonPeriodicWaveform
    ((P.resample w.data (resampleCount w.data.length w.deltaTimeSec intervalSec)).map roundTo6)
    w.multiplierAmplitudeVolt intervalSec w.offsetVdc

/-- The RMSE acceptance test `np.sqrt(np.mean((a - b) ** 2)) < tol` in the
equivalent decidable form: the mean of squares is non-negative, so the strict
square-root comparison holds iff `0 ≤ tol` and `mean((a-b)^2) < tol^2`
(`rmseLt_eq_sqrt_lt` below proves the equivalence). -/
def rmseLt (a b : List ℚ) (tol : ℚ) : Bool :=
  decide (0 ≤ tol) && decide (meanQ (((a.zip b).map (fun p => (p.1 - p.2) ^ 2))) < tol ^ 2)

/-- The periodic-vs-periodic body of `BasePeriodicWaveform.compare` with
`ignore_phase=False`, as `get_phase_difference_to` invokes it on its candidate
waveform: frequency guard, resample both to the coarser interval, convert to
volts, RMSE test. -/
def periodicCompareNoPhase (P : Prims) (self other : PeriodicWaveform) (tol : ℚ) :
    Except WErr Bool :=
  if self.frequencyHz ≠ other.frequencyHz then .ok false
  else
    let commonDelta := max (periodicDeltaTimeSec self) (periodicDeltaTimeSec other)
    match periodicGetResampledVersion P self commonDelta with
    | .error e => .error e
    | .ok sr =>
        match periodicGetResampledVersion P other commonDelta with
        | .error e => .error e
        | .ok tr =>
            .ok (rmseLt (periodicGetDataInVolts sr) (periodicGetDataInVolts tr) tol)

/-- The candidate of `get_phase_difference_to`: a `CustomPeriodicWaveform` that
copies `other` with `phase = other.phase - phase` (the estimated shift, in
turns here). -/
def phaseDiffCandidate (other : PeriodicWaveform) (phaseTurns : ℚ) :
    Except WErr PeriodicWaveform :=
  mkCustomPeriodicWaveform other.data other.frequencyHz other.amplitudeVpp other.offsetVdc
    (other.phase - phaseTurns)

/-- `BasePeriodicWaveform.get_phase_difference_to`.  Mirrors the source line
for line: the amplitude and frequency guards and the degenerate-alignment
guard `return False` (the Python boolean, not `None`); the cross-correlation
alignment of the tiled self-signal; the phase `2π * best_pos / len(data)`
(here `best_pos / len(data)` turns); the candidate comparison returning the
phase on success and `None` on failure. -/
def getPhaseDifferenceTo (P : Prims) (self other : PeriodicWaveform) (tol : ℚ) :
    Except WErr PhaseRes :=
  if self.amplitudeVpp ≠ other.amplitudeVpp then .ok .fls
  else if self.frequencyHz ≠ other.frequencyHz then .ok .fls
  else
    let commonDelta := max (periodicDeltaTimeSec self) (periodicDeltaTimeSec other)
    match periodicGetResampledVersion P self commonDelta with
    | .error e => .error e
    | .ok sr =>
        match periodicGetResampledVersion P other commonDelta with
        | .error e => .error e
        | .ok tr =>
            let otherSignal := periodicGetDataInVolts tr
            let tiled := periodicGetDataInVolts sr ++ periodicGetDataInVolts sr
            let bestPos := argmaxIdx (P.correlateValid tiled otherSignal)
            let selfSignal := (tiled.drop bestPos).take self.data.length
            if selfSignal.length < otherSignal.length then .ok .fls
            else
              let phaseTurns : ℚ := (bestPos : ℚ) / (self.data.length : ℚ)
              match phaseDiffCandidate other phaseTurns with
              | .error e => .error e
              | .ok cand =>
                  match periodicCompareNoPhase P self cand tol with
                  | .error e => .error e
                  | .ok true => .ok (.val phaseTurns)
                  | .ok false => .ok .none

/-- The same-kind body of `BasePeriodicWaveform.compare`: frequency guard, then
either the `ignore_phase` test `get_phase_difference_to(...) is not None` or
the direct RMSE test. -/
def periodicCompareSameKind (P : Prims) (self other : PeriodicWaveform) (tol : ℚ)
    (ignorePhase : Bool) : Except WErr Bool :=
  if self.frequencyHz ≠ other.frequencyHz then .ok false
  else if ignorePhase then
    match getPhaseDifferenceTo P self other tol with
    | .error e => .error e
    | .ok r => .ok (decide (r ≠ PhaseRes.none))
  else
    let commonDelta := max (periodicDeltaTimeSec self) (periodicDeltaTimeSec other)
    match periodicGetResampledVersion P self commonDelta with
    | .error e => .error e
    | .ok sr =>
        match periodicGetResampledVersion P other commonDelta with
        | .error e => .error e
        | .ok tr =>
            .ok (rmseLt (periodicGetDataInVolts sr) (periodicGetDataInVolts tr) tol)

/-- `min_lag = max(8, sample_count // 80)` of the periodicity extraction. -/
def peqMinLag (w : NonPeriodicWaveform) : ℕ := max 8 (w.data.length / 80)

/-- The normalized positive-lag autocorrelation of the periodicity extraction:
detrend, full autocorrelation, keep the second half, divide by
`auto_corr[0] + 1e-12`. -/
def peqAutoCorr (P : Prims) (w : NonPeriodicWaveform) : List ℚ :=
  let detrended := P.detrend w.data
  let ac0 := P.correlateFull detrended detrended
  let ac1 := ac0.drop (ac0.length / 2)
  ac1.map (fun x => x / (ac1.headD 0 + 1 / 10 ^ 12))

/-- The candidate peaks of the periodicity extraction:
`find_peaks(auto_corr[min_lag:], height=0.28, prominence=0.18,
distance=min_lag // 3)`. -/
def peqPeaks (P : Prims) (w : NonPeriodicWaveform) : List ℕ :=
  P.findPeaks ((peqAutoCorr P w).drop (peqMinLag w)) (7 / 25) (9 / 50) (peqMinLag w / 3)

/-- `candidate_periods = np.sort(peaks + min_lag)`. -/
def peqCandidates (P : Prims) (w : NonPeriodicWaveform) : List ℕ :=
  ((peqPeaks P w).map (· + peqMinLag w)).mergeSort (· ≤ ·)

/-- The values of column `j` across the stacked cycles:
`cycles[:, j]` after `data[:n*p].reshape((n, p))`. -/
def cycleColumn (data : List ℚ) (p n j : ℕ) : List ℚ :=
  (List.range n).map (fun i => data.getD (i * p + j) 0)

/-- Population variance of a list, `np.std(...) ** 2` (`np.std` uses `ddof=0`). -/
def varQ (l : List ℚ) : ℚ := meanQ (l.map (fun x => (x - meanQ l) ^ 2))

/-- The column-wise mean cycle `np.mean(cycles, axis=0)`. -/
def meanCycle (data : List ℚ) (p n : ℕ) : List ℚ :=
  (List.range p).map (fun j => meanQ (cycleColumn data p n j))

/-- `np.ptp`: peak to peak, `max - min`. -/
def ptpQ (l : List ℚ) : ℚ := listMax l - listMin l

/-- `rel_var = np.mean(np.std(cycles, axis=0)) / (np.ptp(np.mean(cycles,
axis=0)) + 1e-9)` for candidate period `p` (with `n = len(data) // p` cycles).
The per-column standard deviation needs a real square root, so this lives in
`ℝ`. -/
noncomputable def relVar (data : List ℚ) (p : ℕ) : ℝ :=
  let n := data.length / p
  (((List.range p).map (fun j => Real.sqrt ((varQ (cycleColumn data p n j) : ℚ) : ℝ))).sum
      / (p : ℝ)) /
    (((ptpQ (meanCycle data p n) : ℚ) : ℝ) + 1 / 10 ^ 9)

open Classical in
/-- The candidate-selection loop of `get_periodic_equivalent_waveform`: skip a
period with fewer than 3 cycles, break on the first `rel_var < 0.22`, else
track the strictly best `rel_var` seen so far.  The source carries
`best_rel_var` alongside `best_period`; the cached value always equals
`relVar data best_period`, so the embedding recomputes it. -/
noncomputable def selectGo (data : List ℚ) : List ℕ → Option ℕ → Option ℕ
  | [], best => best
  | p :: rest, best =>
      if data.length / p < 3 then selectGo data rest best
      else if relVar data p < 11 / 50 then some p
      else
        match best with
        | Option.none => selectGo data rest (some p)
        | some q =>
            if relVar data p < relVar data q then selectGo data rest (some p)
            else selectGo data rest best

/-- `BaseNonPeriodicWaveform.get_periodic_equivalent_waveform`: the length
guard, the autocorrelation peak search, the selection loop over the 12
smallest candidates, and the construction of the mean-cycle
`CustomPeriodicWaveform` with `frequency_hz = 1 / (delta_time_sec * period)`,
`amplitude_vpp = multiplier * 2`, the offset carried over and phase `0`. -/
noncomputable def getPeriodicEquivalentWaveform (P : Prims) (w : NonPeriodicWaveform) :
    Except WErr PeriodicWaveform :=
  if w.data.length < 300 then .error .insufficientData
  else if (peqPeaks P w).length = 0 then .error .noPeriodicity
  else
    match selectGo w.data ((peqCandidates P w).take 12) Option.none with
    | Option.none => .error .noConsistentPeriod
    | some bestPeriod =>
        mkCustomPeriodicWaveform
          (meanCycle w.data bestPeriod (w.data.length / bestPeriod))
          (1 / (w.deltaTimeSec * bestPeriod)) (w.multiplierAmplitudeVolt * 2)
          w.offsetVdc 0

/-- `BasePeriodicWaveform.compare`, with explicit recursion fuel.  A
`CustomNonPeriodicWaveform` operand is converted and the source then calls
`with_waveform_periodic.compare(with_waveform, ...)` — the *non-periodic*
operand again, not `self`, so the call recurses on the same mixed pair and
never terminates; `Option.none` models the recursion running out of every
fuel bound (Python's `RecursionError`). -/
noncomputable def periodicCompare (P : Prims) :
    ℕ → PeriodicWaveform → Waveform → ℚ → Bool → Option (Except WErr Bool)
  | 0, _, _, _, _ => Option.none
  | Nat.succ fuel, _self, .nonPeriodic np, tol, ignorePhase =>
      match getPeriodicEquivalentWaveform P np with
      | .error e => some (.error e)
      | .ok wp => periodicCompare P fuel wp (.nonPeriodic np) tol ignorePhase
  | Nat.succ _, self, .periodic wp, tol, ignorePhase =>
      some (periodicCompareSameKind P self wp tol ignorePhase)

/-- `BaseNonPeriodicWaveform.compare`: against a `CustomPeriodicWaveform`,
convert `self` and delegate (with the default `ignore_phase=False`); against a
non-periodic waveform, resample both to the coarser interval, convert to
volts, declare not-equal on a length mismatch, else RMSE test. -/
noncomputable def nonPeriodicCompare (P : Prims) (self : NonPeriodicWaveform) (other : Waveform)
    (tol : ℚ) : Except WErr Bool :=
  match other with
  | .periodic wp =>
      match getPeriodicEquivalentWaveform P self with
      | .error e => .error e
      | .ok selfP => periodicCompareSameKind P selfP wp tol false
  | .nonPeriodic wn =>
      let commonDelta := max self.deltaTimeSec wn.deltaTimeSec
      match nonPeriodicGetResampledVersion P self commonDelta with
      | .error e => .error e
      | .ok sr =>
          match nonPeriodicGetResampledVersion P wn commonDelta with
          | .error e => .error e
          | .ok tr =>
              let a := nonPeriodicGetDataInVolts sr
              let b := nonPeriodicGetDataInVolts tr
              if a.length ≠ b.length then .ok false
              else .ok (rmseLt a b tol)

/-- The polymorphic comparison entry point over the two kinds, `ignore_phase`
left at its default `False`. -/
noncomputable def waveformCompare (P : Prims) (fuel : ℕ) (a b : Waveform) (tol : ℚ) :
    Option (Except WErr Bool) :=
  match a with
  | .periodic wp => periodicCompare P fuel wp b tol false
  | .nonPeriodic wn => some (nonPeriodicCompare P wn b tol)

/-- The claim's version of the resampled sample count, with `round` (Python
rounds half to even) in place of the source's `int(...)` truncation; kept for
comparison with `resampleCount`. -/
def resampleCountSpec (n : ℕ) (delta interval : ℚ) : ℕ :=
  (roundHalfEven ((n : ℚ) * (delta / interval))).toNat

/-- The claim's version of the periodic voltage conversion, with the split
index `round(sample_count * (phase mod 2π) / 2π)` in place of the source's
truncation; kept for comparison with `periodicGetDataInVolts`. -/
def periodicGetDataInVoltsSpec (w : PeriodicWaveform) : List ℚ :=
  let s := (roundHalfEven ((w.data.length : ℚ) * Int.fract w.phase)).toNat
  (w.data.drop s ++ w.data.take s).map (fun x => x * w.amplitudeVpp / 2 - w.offsetVdc)

/-- The candidates the selection loop actually examines: the 12 smallest, with
the ones offering fewer than 3 full cycles dropped. -/
def candEvaluated (data : List ℚ) (cands : List ℕ) : List ℕ :=
  (cands.take 12).filter (fun p => decide (3 ≤ data.length / p))

open Classical in
/-- First candidate (in order) whose `rel_var` is below the 0.22 threshold. -/
noncomputable def firstGood (data : List ℚ) (l : List ℕ) : Option ℕ :=
  l.find? (fun p => decide (relVar data p < 11 / 50))

open Classical in
/-- First candidate attaining the strictly minimal `rel_var` (ties keep the
earlier candidate, as the source's strict `<` update does). -/
noncomputable def argminRel (data : List ℚ) : List ℕ → Option ℕ → Option ℕ
  | [], best => best
  | p :: rest, Option.none => argminRel data rest (some p)
  | p :: rest, some q =>
      if relVar data p < relVar data q then argminRel data rest (some p)
      else argminRel data rest (some q)

/-- The claim's description of the period selection: among the 12 smallest
candidates with at least 3 full cycles, accept the first with
`rel_var < 0.22`; otherwise use the candidate with globally minimal
`rel_var`; yield nothing when every candidate was skipped. -/
noncomputable def selectBestPeriodSpec (data : List ℚ) (cands : List ℕ) : Option ℕ :=
  match firstGood data (candEvaluated data cands) with
  | some p => some p
  | Option.none => argminRel data (candEvaluated data cands) Option.none

/-- Primitive instance whose resampler returns a zero buffer of the requested
length (used to instantiate universally quantified statements). -/
def trivPrims : Prims :=
  ⟨fun _ n => List.replicate n 0, fun _ _ => [], fun _ _ => [], fun _ _ _ _ => [], fun l => l⟩

/-- Primitive instance whose resampler returns its input unchanged. -/
def idPrims : Prims :=
  ⟨fun xs _ => xs, fun _ _ => [], fun _ _ => [], fun _ _ _ _ => [], fun l => l⟩

/-- Primitive instance whose peak finder reports one peak at index 1. -/
def peakPrims : Prims :=
  ⟨fun _ n => List.replicate n 0, fun _ _ => [], fun _ _ => [], fun _ _ _ _ => [1], fun l => l⟩

/-- A periodic waveform with `amplitude_vpp = 1`. -/
def pwAmpOne : PeriodicWaveform := ⟨[0], 1, 1, 0, 0⟩

/-- A periodic waveform equal to `pwAmpOne` except `amplitude_vpp = 2`. -/
def pwAmpTwo : PeriodicWaveform := ⟨[0], 1, 2, 0, 0⟩

/-- A non-periodic waveform with multiplier 2 and offset 1 over the single
sample `1/2`. -/
def npOffset : NonPeriodicWaveform := ⟨[1 / 2], 2, 1, 1⟩

/-- A 4-sample periodic waveform whose phase (0.7 of a turn) puts the split
index computation at 2.8, where truncation (2) and rounding (3) differ. -/
def pwSplit : PeriodicWaveform := ⟨[1 / 10, 2 / 10, 3 / 10, 4 / 10], 1, 2, 0, 7 / 10⟩

/-- A 3-sample periodic waveform with `delta_time_sec = 1`: resampling it to
interval 2 puts the new sample count computation at 1.5, where truncation (1)
and rounding (2) differ. -/
def pwThree : PeriodicWaveform := ⟨[0, 0, 0], 1 / 3, 1, 0, 0⟩

/-- A single-sample periodic waveform for the self-comparison witness. -/
def pwSelf : PeriodicWaveform := ⟨[1 / 2], 1, 1, 0, 0⟩

/-- A single-sample non-periodic waveform for the self-comparison witness. -/
def npSelf : NonPeriodicWaveform := ⟨[1 / 2], 1, 1, 0⟩

/-- A 300-sample all-zero non-periodic waveform (long enough for the
periodicity extraction's length guard). -/
def npLong : NonPeriodicWaveform := ⟨List.replicate 300 0, 1, 1, 0⟩

/-- The validity discipline the spec's data model imposes on a waveform that
the library itself would construct: a non-empty sample buffer within
`[-1, 1]`, a positive frequency for the periodic kind (spec §3:
`frequency_hz > 0`) and a positive sample interval for the non-periodic kind
(spec §4.1: `sample_interval_seconds` must be `> 0`). -/
def ConstructibleWaveform : Waveform → Prop
  | .periodic w => w.data ≠ [] ∧ (∀ x ∈ w.data, -1 ≤ x ∧ x ≤ 1) ∧ 0 < w.frequencyHz
  | .nonPeriodic w => w.data ≠ [] ∧ (∀ x ∈ w.data, -1 ≤ x ∧ x ≤ 1) ∧ 0 < w.deltaTimeSec


/-! ## Supporting lemmas -/

/-- The Boolean `rmseLt` is exactly the source's strict square-root test
`np.sqrt(np.mean((a - b) ** 2)) < tol`. -/
theorem rmseLt_eq_sqrt_lt (a b : List ℚ) (tol : ℚ) :
    rmseLt a b tol = true ↔
      Real.sqrt ((meanQ ((a.zip b).map (fun p => (p.1 - p.2) ^ 2)) : ℚ)) < (tol : ℝ) := by
  have hm0 : 0 ≤ meanQ ((a.zip b).map (fun p => (p.1 - p.2) ^ 2)) := by
    unfold meanQ
    apply div_nonneg
    · apply List.sum_nonneg
      intro x hx
      obtain ⟨p, _, rfl⟩ := List.mem_map.mp hx
      positivity
    · positivity
  set m : ℚ := meanQ ((a.zip b).map (fun p => (p.1 - p.2) ^ 2)) with hm
  unfold rmseLt
  rw [← hm]
  simp only [Bool.and_eq_true, decide_eq_true_eq]
  rcases lt_trichotomy tol 0 with hneg | rfl | hpos
  · have h2 : ¬ Real.sqrt (m : ℝ) < (tol : ℝ) := by
      push_neg
      have htr : (tol : ℝ) < 0 := by exact_mod_cast hneg
      linarith [Real.sqrt_nonneg (m : ℝ)]
    constructor
    · rintro ⟨h, _⟩
      exact absurd hneg (not_lt.mpr h)
    · intro h
      exact absurd h h2
  · constructor
    · rintro ⟨_, h⟩
      exact absurd h (by push_neg; simpa using hm0)
    · intro h
      exact absurd h (by push_neg; exact_mod_cast Real.sqrt_nonneg (m : ℝ))
  · have h1 : (0 : ℝ) < (tol : ℝ) := by exact_mod_cast hpos
    rw [Real.sqrt_lt' h1]
    constructor
    · rintro ⟨_, h⟩
      exact_mod_cast h
    · intro h
      exact ⟨le_of_lt hpos, by exact_mod_cast h⟩

/-- Comparing a voltage list against itself passes the default tolerance. -/
theorem rmseLt_self (v : List ℚ) : rmseLt v v (1 / 100) = true := by
  have hsum : ∀ u : List ℚ, ((u.zip u).map (fun p => (p.1 - p.2) ^ 2)).sum = 0 := by
    intro u
    induction u with
    | nil => simp
    | cons x xs ih => simpa using ih
  have hmean : meanQ ((v.zip v).map (fun p => (p.1 - p.2) ^ 2)) = 0 := by
    unfold meanQ
    rw [hsum, zero_div]
  unfold rmseLt
  rw [hmean]
  norm_num

/-- Membership bound for `listMax`: some element exceeds `c` iff the maximum
does. -/
theorem lt_listMax_iff (c : ℚ) : ∀ (l : List ℚ), l ≠ [] → (c < listMax l ↔ ∃ x ∈ l, c < x)
  | [], h => absurd rfl h
  | [x], _ => by simp [listMax]
  | x :: y :: r, _ => by
      have ih := lt_listMax_iff c (y :: r) (by simp)
      simp only [listMax, lt_max_iff, ih]
      constructor
      · rintro (h | ⟨z, hz, hcz⟩)
        · exact ⟨x, List.mem_cons_self x _, h⟩
        · exact ⟨z, List.mem_cons_of_mem x hz, hcz⟩
      · rintro ⟨z, hz, hcz⟩
        rcases List.mem_cons.mp hz with rfl | hz2
        · exact Or.inl hcz
        · exact Or.inr ⟨z, hz2, hcz⟩

/-- Membership bound for `listMin`: some element is below `c` iff the minimum
is. -/
theorem listMin_lt_iff (c : ℚ) : ∀ (l : List ℚ), l ≠ [] → (listMin l < c ↔ ∃ x ∈ l, x < c)
  | [], h => absurd rfl h
  | [x], _ => by simp [listMin]
  | x :: y :: r, _ => by
      have ih := listMin_lt_iff c (y :: r) (by simp)
      simp only [listMin, min_lt_iff, ih]
      constructor
      · rintro (h | ⟨z, hz, hcz⟩)
        · exact ⟨x, List.mem_cons_self x _, h⟩
        · exact ⟨z, List.mem_cons_of_mem x hz, hcz⟩
      · rintro ⟨z, hz, hcz⟩
        rcases List.mem_cons.mp hz with rfl | hz2
        · exact Or.inl hcz
        · exact Or.inr ⟨z, hz2, hcz⟩

/-- Validation succeeds on a non-empty in-range sample buffer. -/
theorem validateData_ok (l : List ℚ) (hne : l ≠ [])
    (hin : ∀ x ∈ l, -1 ≤ x ∧ x ≤ 1) : validateData l = .ok () := by
  unfold validateData
  match l, hne with
  | x :: xs, _ =>
    have h1 : ¬ 1 < listMax (x :: xs) := by
      rw [lt_listMax_iff 1 (x :: xs) (by simp)]
      push_neg
      intro z hz
      exact (hin z hz).2
    have h2 : ¬ listMin (x :: xs) < -1 := by
      rw [listMin_lt_iff (-1) (x :: xs) (by simp)]
      push_neg
      intro z hz
      exact (hin z hz).1
    simp [h1, h2]

/-- A validation error is the empty-sequence error or an invalid-data error:
the zero-count resampling error and the extraction errors never come from
`_validate_data`. -/
theorem validateData_error_cases (l : List ℚ) (e : WErr) (h : validateData l = .error e) :
    e = .emptySeq ∨ ∃ lo hi, e = .invalidData lo hi := by
  unfold validateData at h
  match l, h with
  | [], h => exact Or.inl (by injection h with h2; exact h2.symm)
  | x :: xs, h =>
    by_cases hc : 1 < listMax (x :: xs) ∨ listMin (x :: xs) < -1
    · rw [if_pos hc] at h
      injection h with h2
      exact Or.inr ⟨_, _, h2.symm⟩
    · rw [if_neg hc] at h
      cases h

/-- The fields a successful `CustomPeriodicWaveform` construction stores. -/
theorem mkCustomPeriodicWaveform_ok (d : List ℚ) (f a o ph : ℚ) (w : PeriodicWaveform)
    (h : mkCustomPeriodicWaveform d f a o ph = .ok w) :
    w = ⟨d, f, a, o, Int.fract ph⟩ := by
  unfold mkCustomPeriodicWaveform at h
  cases hv : validateData d with
  | error e => rw [hv] at h; cases h
  | ok u => rw [hv] at h; injection h with h2; exact h2.symm

/-- The fields a successful `CustomNonPeriodicWaveform` construction stores. -/
theorem mkCustomNonPeriodicWaveform_ok (d : List ℚ) (m dt o : ℚ) (w : NonPeriodicWaveform)
    (h : mkCustomNonPeriodicWaveform d m dt o = .ok w) :
    w = ⟨d, m, dt, o⟩ := by
  unfold mkCustomNonPeriodicWaveform at h
  cases hv : validateData d with
  | error e => rw [hv] at h; cases h
  | ok u => rw [hv] at h; injection h with h2; exact h2.symm

/-- A failed `CustomPeriodicWaveform` construction carries a validation
error. -/
theorem mkCustomPeriodicWaveform_error (d : List ℚ) (f a o ph : ℚ) (e : WErr)
    (h : mkCustomPeriodicWaveform d f a o ph = .error e) :
    e = .emptySeq ∨ ∃ lo hi, e = .invalidData lo hi := by
  unfold mkCustomPeriodicWaveform at h
  cases hv : validateData d with
  | error e2 =>
      rw [hv] at h
      injection h with h2
      rw [h2] at hv
      exact validateData_error_cases d e hv
  | ok u => rw [hv] at h; cases h

/-- A failed `CustomNonPeriodicWaveform` construction carries a validation
error. -/
theorem mkCustomNonPeriodicWaveform_error (d : List ℚ) (m dt o : ℚ) (e : WErr)
    (h : mkCustomNonPeriodicWaveform d m dt o = .error e) :
    e = .emptySeq ∨ ∃ lo hi, e = .invalidData lo hi := by
  unfold mkCustomNonPeriodicWaveform at h
  cases hv : validateData d with
  | error e2 =>
      rw [hv] at h
      injection h with h2
      rw [h2] at hv
      exact validateData_error_cases d e hv
  | ok u => rw [hv] at h; cases h

/-- `roundHalfEven` never exceeds an integer bound the argument respects. -/
theorem roundHalfEven_le (q : ℚ) (m : ℤ) (h : q ≤ (m : ℚ)) : roundHalfEven q ≤ m := by
  have hf : ⌊q⌋ ≤ m := by
    have h2 := Int.floor_le_floor h
    simpa using h2
  have hstep : ¬ (q - ⌊q⌋ < 1 / 2) → ⌊q⌋ + 1 ≤ m := by
    intro hr
    push_neg at hr
    have hlt : (⌊q⌋ : ℚ) < q := by linarith
    have h3 : (⌊q⌋ : ℚ) < (m : ℚ) := lt_of_lt_of_le hlt h
    have h4 : ⌊q⌋ < m := by exact_mod_cast h3
    omega
  unfold roundHalfEven
  split
  next => exact hf
  next h1 =>
    split
    next => exact hstep h1
    next =>
      split
      next => exact hf
      next => exact hstep h1

/-- `roundHalfEven` never goes below an integer bound the argument respects. -/
theorem le_roundHalfEven (q : ℚ) (m : ℤ) (h : (m : ℚ) ≤ q) : m ≤ roundHalfEven q := by
  have hf : m ≤ ⌊q⌋ := Int.le_floor.mpr h
  unfold roundHalfEven
  split
  next => exact hf
  next =>
    split
    next => omega
    next =>
      split
      next => exact hf
      next => omega

/-- Rounding to 6 decimals keeps a normalized sample in `[-1, 1]`. -/
theorem roundTo6_bounds (q : ℚ) (h1 : -1 ≤ q) (h2 : q ≤ 1) :
    -1 ≤ roundTo6 q ∧ roundTo6 q ≤ 1 := by
  have hu : roundHalfEven (q * 1000000) ≤ (1000000 : ℤ) :=
    roundHalfEven_le _ _ (by push_cast; linarith)
  have hl : (-1000000 : ℤ) ≤ roundHalfEven (q * 1000000) :=
    le_roundHalfEven _ _ (by push_cast; linarith)
  have hl2 : ((-1000000 : ℤ) : ℚ) ≤ (roundHalfEven (q * 1000000) : ℚ) := by exact_mod_cast hl
  have hu2 : ((roundHalfEven (q * 1000000) : ℤ) : ℚ) ≤ ((1000000 : ℤ) : ℚ) := by
    exact_mod_cast hu
  unfold roundTo6
  constructor
  · rw [le_div_iff₀ (by norm_num : (0 : ℚ) < 1000000)]
    push_cast at hl2 ⊢
    linarith
  · rw [div_le_one (by norm_num : (0 : ℚ) < 1000000)]
    push_cast at hu2 ⊢
    linarith

/-- Resampling to a waveform's own interval asks for its own sample count. -/
theorem resampleCount_self (n : ℕ) (δ : ℚ) (h : δ ≠ 0) : resampleCount n δ δ = n := by
  unfold resampleCount
  rw [div_self h, mul_one, Int.floor_natCast]
  exact Int.toNat_natCast n

/-! ## Claim theorems -/

/-- C4: the source computes `data * multiplier_amplitude_volt - offset_vdc`:
at the sample `1/2` with multiplier `2` and offset `1` the voltage is `0`,
where the claim's additive formula `samples * amplitude + offset` would give
`2`.  The subtraction also contradicts the code's own docstrings
(`offset_vdc`: "additional offset that will be added to the signal"). -/
theorem nonPeriodic_volts_subtract_offset :
    nonPeriodicGetDataInVolts npOffset = [0] ∧
      (npOffset.data.map (fun x => x * npOffset.multiplierAmplitudeVolt + npOffset.offsetVdc)) =
        [2] := by
  constructor
  · norm_num [nonPeriodicGetDataInVolts, npOffset]
  · norm_num [npOffset]

/-- C2: on a peak-to-peak amplitude mismatch `get_phase_difference_to`
returns the Python boolean `False` — not the `None` sentinel its own
docstring and the spec promise (the frequency-mismatch and
degenerate-alignment paths return the same boolean). -/
theorem phase_difference_mismatch_returns_false :
    getPhaseDifferenceTo trivPrims pwAmpOne pwAmpTwo (1 / 100) = .ok .fls ∧
      PhaseRes.fls ≠ PhaseRes.none := by
  constructor
  · norm_num [getPhaseDifferenceTo, pwAmpOne, pwAmpTwo]
  · simp

/-- C5 counterexample: for the 4-sample waveform `pwSplit` with phase 0.7 of a
turn the source's truncated split index is 2 but the claim's rounded split
index is 3, so the voltage buffers differ. -/
theorem periodic_volts_split_cex :
    periodicGetDataInVolts pwSplit = [3 / 10, 4 / 10, 1 / 10, 2 / 10] ∧
      periodicGetDataInVoltsSpec pwSplit = [4 / 10, 1 / 10, 2 / 10, 3 / 10] ∧
      periodicGetDataInVolts pwSplit ≠ periodicGetDataInVoltsSpec pwSplit := by
  refine ⟨?_, ?_, ?_⟩
  · norm_num [periodicGetDataInVolts, splitIndex, pwSplit, Int.fract, Int.toNat]
  · norm_num [periodicGetDataInVoltsSpec, pwSplit, Int.fract, roundHalfEven, Int.toNat]
  · intro h
    rw [show periodicGetDataInVolts pwSplit = [3 / 10, 4 / 10, 1 / 10, 2 / 10] by
          norm_num [periodicGetDataInVolts, splitIndex, pwSplit, Int.fract, Int.toNat],
        show periodicGetDataInVoltsSpec pwSplit = [4 / 10, 1 / 10, 2 / 10, 3 / 10] by
          norm_num [periodicGetDataInVoltsSpec, pwSplit, Int.fract, roundHalfEven,
            Int.toNat]] at h
    norm_num at h

/-- C6 counterexample: resampling the 3-sample waveform `pwThree`
(`delta_time_sec = 1`) to interval 2 puts `old_count * old_interval /
target_interval` at `1.5`; the source's `int(...)` yields 1 sample (the
result below), while the claim's `round(...)` demands 2. -/
theorem resample_count_truncates_cex :
    periodicGetResampledVersion trivPrims pwThree 2 = .ok ⟨[0], 1 / 3, 1, 0, 0⟩ ∧
      resampleCountSpec 3 1 2 = 2 := by
  constructor
  · norm_num [periodicGetResampledVersion, trivPrims, pwThree, periodicDeltaTimeSec,
      resampleCount, Int.toNat, mkCustomPeriodicWaveform, validateData, listMax, listMin,
      roundTo6, roundHalfEven, Int.fract]
  · norm_num [resampleCountSpec, roundHalfEven, Int.toNat]

/-- C6 amended: the resampled sample count is the truncation
`int(old_count * old_interval / target_interval)` (not `round`), with values
rounded to 6 decimals; the zero-count `InvalidResampleError` guard exists on
the periodic side only — the non-periodic `get_resampled_version` performs no
such check (a zero-count request fails later, during validation of the empty
rebuilt buffer, with a different error). -/
theorem resample_count_and_zero_check (P : Prims)
    (hlen : ∀ xs n, (P.resample xs n).length = n) (wp : PeriodicWaveform)
    (wn : NonPeriodicWaveform) (iv : ℚ) :
    (periodicGetResampledVersion P wp iv = .error .resampleZero ↔
      resampleCount wp.data.length (periodicDeltaTimeSec wp) iv = 0) ∧
    nonPeriodicGetResampledVersion P wn iv ≠ .error .resampleZero ∧
    (∀ r, periodicGetResampledVersion P wp iv = .ok r →
      r.data = (P.resample wp.data
          (resampleCount wp.data.length (periodicDeltaTimeSec wp) iv)).map roundTo6 ∧
        r.data.length = resampleCount wp.data.length (periodicDeltaTimeSec wp) iv) ∧
    (∀ r, nonPeriodicGetResampledVersion P wn iv = .ok r →
      r.data = (P.resample wn.data
          (resampleCount wn.data.length wn.deltaTimeSec iv)).map roundTo6 ∧
        r.data.length = resampleCount wn.data.length wn.deltaTimeSec iv) := by
  refine ⟨?_, ?_, ?_, ?_⟩
  · unfold periodicGetResampledVersion
    by_cases hz : resampleCount wp.data.length (periodicDeltaTimeSec wp) iv = 0
    · rw [if_pos hz]
      simp [hz]
    · rw [if_neg hz]
      simp only [hz, iff_false]
      intro h
      rcases mkCustomPeriodicWaveform_error _ _ _ _ _ _ h with h2 | ⟨lo, hi, h2⟩ <;> cases h2
  · unfold nonPeriodicGetResampledVersion
    intro h
    rcases mkCustomNonPeriodicWaveform_error _ _ _ _ _ h with h2 | ⟨lo, hi, h2⟩ <;> cases h2
  · intro r h
    simp only [periodicGetResampledVersion] at h
    split at h
    · cases h
    · have h2 := mkCustomPeriodicWaveform_ok _ _ _ _ _ _ h
      subst h2
      exact ⟨rfl, by simp [hlen]⟩
  · intro r h
    unfold nonPeriodicGetResampledVersion at h
    have h2 := mkCustomNonPeriodicWaveform_ok _ _ _ _ _ h
    subst h2
    exact ⟨rfl, by simp [hlen]⟩

/-- Witness for the amended resampling claim at concrete inputs: the
non-periodic single-sample waveform `npSelf` resampled to interval 2 never
raises the zero-count error. -/
theorem resample_count_and_zero_check_witness :
    nonPeriodicGetResampledVersion trivPrims npSelf 2 ≠ .error .resampleZero :=
  (resample_count_and_zero_check trivPrims
    (by intro xs n; simp [trivPrims]) pwSelf npSelf 2).2.1

/-- The validation error with the reported min/max occurs exactly on
out-of-range data. -/
theorem validateData_invalid_iff (d : List ℚ) :
    validateData d = .error (.invalidData (listMin d) (listMax d)) ↔
      ∃ x ∈ d, 1 < x ∨ x < -1 := by
  match d with
  | [] => simp [validateData]
  | x :: xs =>
    unfold validateData
    by_cases hc : 1 < listMax (x :: xs) ∨ listMin (x :: xs) < -1
    · rw [if_pos hc]
      simp only [true_iff]
      rcases hc with hmax | hmin
      · obtain ⟨z, hz, h2⟩ := (lt_listMax_iff 1 (x :: xs) (by simp)).mp hmax
        exact ⟨z, hz, Or.inl h2⟩
      · obtain ⟨z, hz, h2⟩ := (listMin_lt_iff (-1) (x :: xs) (by simp)).mp hmin
        exact ⟨z, hz, Or.inr h2⟩
    · rw [if_neg hc]
      constructor
      · intro h
        cases h
      · rintro ⟨z, hz, h2 | h2⟩
        · exact absurd (Or.inl ((lt_listMax_iff 1 (x :: xs) (by simp)).mpr ⟨z, hz, h2⟩)) hc
        · exact absurd (Or.inr ((listMin_lt_iff (-1) (x :: xs) (by simp)).mpr ⟨z, hz, h2⟩)) hc

/-- A validation error reporting `invalidData` always reports the true min and
max. -/
theorem validateData_invalid_args (d : List ℚ) (lo hi : ℚ)
    (h : validateData d = .error (.invalidData lo hi)) :
    lo = listMin d ∧ hi = listMax d := by
  match d with
  | [] => cases h
  | x :: xs =>
    unfold validateData at h
    by_cases hc : 1 < listMax (x :: xs) ∨ listMin (x :: xs) < -1
    · rw [if_pos hc] at h
      injection h with h2
      injection h2 with h3 h4
      exact ⟨h3.symm, h4.symm⟩
    · rw [if_neg hc] at h
      cases h

/-- A `CustomPeriodicWaveform` construction fails exactly as validation
fails. -/
theorem mkCustomPeriodicWaveform_error_iff (d : List ℚ) (f a o ph : ℚ) (e : WErr) :
    mkCustomPeriodicWaveform d f a o ph = .error e ↔ validateData d = .error e := by
  unfold mkCustomPeriodicWaveform
  cases hv : validateData d with
  | error e2 => simp
  | ok u => simp

/-- A `CustomNonPeriodicWaveform` construction fails exactly as validation
fails. -/
theorem mkCustomNonPeriodicWaveform_error_iff (d : List ℚ) (m dt o : ℚ) (e : WErr) :
    mkCustomNonPeriodicWaveform d m dt o = .error e ↔ validateData d = .error e := by
  unfold mkCustomNonPeriodicWaveform
  cases hv : validateData d with
  | error e2 => simp
  | ok u => simp

/-- C9: constructing a custom periodic or non-periodic waveform fails with the
invalid-data error — reporting the observed minimum and maximum — exactly when
some sample lies outside `[-1, 1]`; any reported pair is the true min/max, so
in-range data never raises this error. -/
theorem custom_waveform_validation (d : List ℚ) (f a o ph m dt od : ℚ) :
    (mkCustomPeriodicWaveform d f a o ph = .error (.invalidData (listMin d) (listMax d)) ↔
      ∃ x ∈ d, 1 < x ∨ x < -1) ∧
    (mkCustomNonPeriodicWaveform d m dt od = .error (.invalidData (listMin d) (listMax d)) ↔
      ∃ x ∈ d, 1 < x ∨ x < -1) ∧
    (∀ lo hi, mkCustomPeriodicWaveform d f a o ph = .error (.invalidData lo hi) →
      lo = listMin d ∧ hi = listMax d) ∧
    (∀ lo hi, mkCustomNonPeriodicWaveform d m dt od = .error (.invalidData lo hi) →
      lo = listMin d ∧ hi = listMax d) := by
  refine ⟨?_, ?_, ?_, ?_⟩
  · rw [mkCustomPeriodicWaveform_error_iff]
    exact validateData_invalid_iff d
  · rw [mkCustomNonPeriodicWaveform_error_iff]
    exact validateData_invalid_iff d
  · intro lo hi h
    exact validateData_invalid_args d lo hi
      ((mkCustomPeriodicWaveform_error_iff d f a o ph _).mp h)
  · intro lo hi h
    exact validateData_invalid_args d lo hi
      ((mkCustomNonPeriodicWaveform_error_iff d m dt od _).mp h)

/-- Witness for C9: the one-sample buffer `[2]` (above 1) is rejected with the
invalid-data error reporting min 2 and max 2. -/
theorem custom_waveform_validation_witness :
    mkCustomPeriodicWaveform [2] 1 1 0 0 = .error (.invalidData (listMin [2]) (listMax [2])) :=
  (custom_waveform_validation [2] 1 1 0 0 1 1 0).1.mpr ⟨2, by simp, by norm_num⟩

/-- C3: with equal frequencies but unequal peak-to-peak amplitudes,
`get_phase_difference_to` returns the boolean `False`, and the
`ignore_phase` branch of `compare` — which tests `... is not None` — therefore
returns `True`: the Python `False` is not `None`. -/
theorem ignore_phase_amplitude_mismatch (P : Prims) (w1 w2 : PeriodicWaveform) (tol : ℚ)
    (hf : w1.frequencyHz = w2.frequencyHz) (ha : w1.amplitudeVpp ≠ w2.amplitudeVpp) :
    getPhaseDifferenceTo P w1 w2 tol = .ok .fls ∧
      periodicCompareSameKind P w1 w2 tol true = .ok true := by
  have hpd : getPhaseDifferenceTo P w1 w2 tol = .ok .fls := by
    unfold getPhaseDifferenceTo
    rw [if_pos ha]
  refine ⟨hpd, ?_⟩
  unfold periodicCompareSameKind
  rw [if_neg (fun hne => hne hf), if_pos rfl, hpd]
  simp

/-- Witness for C3 at concrete inputs: `pwAmpOne` (amplitude 1) against
`pwAmpTwo` (amplitude 2), both of frequency 1. -/
theorem ignore_phase_amplitude_mismatch_witness :
    getPhaseDifferenceTo trivPrims pwAmpOne pwAmpTwo (1 / 100) = .ok .fls ∧
      periodicCompareSameKind trivPrims pwAmpOne pwAmpTwo (1 / 100) true = .ok true :=
  ignore_phase_amplitude_mismatch trivPrims pwAmpOne pwAmpTwo (1 / 100) rfl
    (by norm_num [pwAmpOne, pwAmpTwo])

/-- C8: the stored phase of every constructed periodic waveform lies in one
turn, i.e. `[0, 2π)` radians — here `[0, 1)` in the turn representation —
and every operation that constructs a periodic waveform (the custom
constructor with any real phase argument, resampling, the phase-difference
candidate, periodicity extraction) preserves the invariant, because each goes
through the constructor's `phase % (2 * np.pi)` normalization. -/
theorem phase_normalized_invariant :
    (∀ (d : List ℚ) (f a o ph : ℚ) (w : PeriodicWaveform),
        mkCustomPeriodicWaveform d f a o ph = .ok w → 0 ≤ w.phase ∧ w.phase < 1) ∧
    (∀ (P : Prims) (w : PeriodicWaveform) (iv : ℚ) (r : PeriodicWaveform),
        periodicGetResampledVersion P w iv = .ok r → 0 ≤ r.phase ∧ r.phase < 1) ∧
    (∀ (o : PeriodicWaveform) (t : ℚ) (r : PeriodicWaveform),
        phaseDiffCandidate o t = .ok r → 0 ≤ r.phase ∧ r.phase < 1) ∧
    (∀ (P : Prims) (w : NonPeriodicWaveform) (r : PeriodicWaveform),
        getPeriodicEquivalentWaveform P w = .ok r → 0 ≤ r.phase ∧ r.phase < 1) := by
  have base : ∀ (d : List ℚ) (f a o ph : ℚ) (w : PeriodicWaveform),
      mkCustomPeriodicWaveform d f a o ph = .ok w → 0 ≤ w.phase ∧ w.phase < 1 := by
    intro d f a o ph w h
    have h2 := mkCustomPeriodicWaveform_ok d f a o ph w h
    subst h2
    exact ⟨Int.fract_nonneg ph, Int.fract_lt_one ph⟩
  refine ⟨base, ?_, ?_, ?_⟩
  · intro P w iv r h
    simp only [periodicGetResampledVersion] at h
    split at h
    · cases h
    · exact base _ _ _ _ _ _ h
  · intro o t r h
    exact base _ _ _ _ _ _ h
  · intro P w r h
    simp only [getPeriodicEquivalentWaveform] at h
    split at h
    · cases h
    · split at h
      · cases h
      · split at h
        · cases h
        · exact base _ _ _ _ _ _ h

/-- The split index never exceeds the buffer length (the phase fraction is
below one turn). -/
theorem splitIndex_le (w : PeriodicWaveform) : splitIndex w ≤ w.data.length := by
  unfold splitIndex
  have h2 : (w.data.length : ℚ) * Int.fract w.phase ≤ (w.data.length : ℚ) := by
    have hf := Int.fract_lt_one w.phase
    have hf0 := Int.fract_nonneg w.phase
    nlinarith [Nat.cast_nonneg (α := ℚ) w.data.length]
  have h1 : (⌊(w.data.length : ℚ) * Int.fract w.phase⌋) ≤ (w.data.length : ℤ) := by
    calc ⌊(w.data.length : ℚ) * Int.fract w.phase⌋ ≤ ⌊(w.data.length : ℚ)⌋ :=
          Int.floor_le_floor h2
    _ = (w.data.length : ℤ) := Int.floor_natCast _
  omega

/-- C5 amended: `get_data_in_volts` splits the one-cycle buffer at
`int(sample_count * (phase mod 2π) / 2π)` — truncation (`⌊⌋`), not `round` —
concatenates tail before head, and scales: element `i` of the result is
`data[(i + split) mod sample_count] * amplitude_vpp / 2 - offset_vdc`. -/
theorem periodic_volts_rotation (w : PeriodicWaveform) (i : ℕ) (h : i < w.data.length) :
    (periodicGetDataInVolts w)[i]? =
      (w.data[(i + splitIndex w) % w.data.length]?).map
        (fun x => x * w.amplitudeVpp / 2 - w.offsetVdc) := by
  unfold periodicGetDataInVolts
  rw [List.getElem?_map, ← List.rotate_eq_drop_append_take (splitIndex_le w),
    List.getElem?_rotate h]

/-- Witness for the amended rotation claim: element 0 of `pwSplit`'s voltages
is its sample at the truncated split index 2. -/
theorem periodic_volts_rotation_witness :
    (periodicGetDataInVolts pwSplit)[0]? =
      (pwSplit.data[(0 + splitIndex pwSplit) % pwSplit.data.length]?).map
        (fun x => x * pwSplit.amplitudeVpp / 2 - pwSplit.offsetVdc) :=
  periodic_volts_rotation pwSplit 0 (by norm_num [pwSplit])

/-- C1: the mixed-kind branch of `BasePeriodicWaveform.compare` calls
`with_waveform_periodic.compare(with_waveform, ...)` — passing the
*non-periodic* operand again instead of `self`.  Consequently the result never
depends on `self` (the right-hand side below does not mention it), and
whenever the conversion succeeds the call recurses on the same mixed pair and
exhausts every fuel bound (`Option.none`: Python's infinite recursion); the
only terminating outcome is the propagated conversion error.  The claim's
comparison "between that equivalent and the other, periodic, operand" never
happens. -/
theorem mixed_compare_drops_self (P : Prims) (fuel : ℕ) (self : PeriodicWaveform)
    (np : NonPeriodicWaveform) (tol : ℚ) (ip : Bool) :
    periodicCompare P fuel self (.nonPeriodic np) tol ip =
      match getPeriodicEquivalentWaveform P np with
      | .error e => if fuel = 0 then Option.none else some (.error e)
      | .ok _ => Option.none := by
  induction fuel generalizing self with
  | zero =>
      cases hpe : getPeriodicEquivalentWaveform P np with
      | error e => simp [periodicCompare]
      | ok wp => simp [periodicCompare]
  | succ fuel ih =>
      cases hpe : getPeriodicEquivalentWaveform P np with
      | error e => simp [periodicCompare, hpe]
      | ok wp =>
          have h2 := ih wp
          rw [hpe] at h2
          simp [periodicCompare, hpe, h2]

/-- Resampling a periodic waveform to its own interval (with a resampler that
is the identity at the same length) rebuilds the same waveform up to the
6-decimal rounding and phase normalization. -/
theorem periodicGetResampledVersion_self (P : Prims)
    (hid : ∀ xs, P.resample xs xs.length = xs) (w : PeriodicWaveform)
    (hne : w.data ≠ []) (hin : ∀ x ∈ w.data, -1 ≤ x ∧ x ≤ 1) (hf : 0 < w.frequencyHz) :
    periodicGetResampledVersion P w (periodicDeltaTimeSec w) =
      .ok ⟨w.data.map roundTo6, w.frequencyHz, w.amplitudeVpp, w.offsetVdc,
        Int.fract w.phase⟩ := by
  have hlen : w.data.length ≠ 0 := by simpa using hne
  have hδ : periodicDeltaTimeSec w ≠ 0 := by
    unfold periodicDeltaTimeSec
    have h1 : (0 : ℚ) < 1 / w.frequencyHz := by positivity
    have h2 : (0 : ℚ) < (w.data.length : ℚ) := by
      exact_mod_cast Nat.pos_of_ne_zero hlen
    positivity
  have hcnt : resampleCount w.data.length (periodicDeltaTimeSec w) (periodicDeltaTimeSec w) =
      w.data.length := resampleCount_self _ _ hδ
  have hin2 : ∀ x ∈ w.data.map roundTo6, -1 ≤ x ∧ x ≤ 1 := by
    intro x hx
    obtain ⟨y, hy, rfl⟩ := List.mem_map.mp hx
    exact roundTo6_bounds y (hin y hy).1 (hin y hy).2
  simp only [periodicGetResampledVersion, hcnt]
  rw [if_neg hlen, hid]
  unfold mkCustomPeriodicWaveform
  rw [validateData_ok _ (by simpa using hne) hin2]

/-- Resampling a non-periodic waveform to its own interval (with a resampler
that is the identity at the same length) rebuilds the same waveform up to the
6-decimal rounding. -/
theorem nonPeriodicGetResampledVersion_self (P : Prims)
    (hid : ∀ xs, P.resample xs xs.length = xs) (w : NonPeriodicWaveform)
    (hne : w.data ≠ []) (hin : ∀ x ∈ w.data, -1 ≤ x ∧ x ≤ 1) (hδ : 0 < w.deltaTimeSec) :
    nonPeriodicGetResampledVersion P w w.deltaTimeSec =
      .ok ⟨w.data.map roundTo6, w.multiplierAmplitudeVolt, w.deltaTimeSec, w.offsetVdc⟩ := by
  have hcnt : resampleCount w.data.length w.deltaTimeSec w.deltaTimeSec = w.data.length :=
    resampleCount_self _ _ (ne_of_gt hδ)
  have hin2 : ∀ x ∈ w.data.map roundTo6, -1 ≤ x ∧ x ≤ 1 := by
    intro x hx
    obtain ⟨y, hy, rfl⟩ := List.mem_map.mp hx
    exact roundTo6_bounds y (hin y hy).1 (hin y hy).2
  simp only [nonPeriodicGetResampledVersion, hcnt]
  rw [hid]
  unfold mkCustomNonPeriodicWaveform
  rw [validateData_ok _ (by simpa using hne) hin2]

/-- C10: self-comparison at the default tolerance 0.01 returns `True` for
every constructible waveform of either kind: both operands run the identical
resample-and-convert pipeline, so the RMSE is 0. -/
theorem compare_self_true (P : Prims) (hid : ∀ xs, P.resample xs xs.length = xs)
    (w : Waveform) (fuel : ℕ) (hw : ConstructibleWaveform w) :
    waveformCompare P (fuel + 1) w w (1 / 100) = some (.ok true) := by
  cases w with
  | periodic wp =>
      obtain ⟨hne, hin, hf⟩ := hw
      show periodicCompare P (fuel + 1) wp (.periodic wp) (1 / 100) false = some (.ok true)
      have hstep : periodicCompare P (fuel + 1) wp (.periodic wp) (1 / 100) false =
          some (periodicCompareSameKind P wp wp (1 / 100) false) := rfl
      rw [hstep]
      congr 1
      simp only [periodicCompareSameKind]
      rw [if_neg (fun h2 => h2 rfl), if_neg (by simp), max_self,
        periodicGetResampledVersion_self P hid wp hne hin hf]
      simp only []
      rw [rmseLt_self]
  | nonPeriodic wn =>
      obtain ⟨hne, hin, hδ⟩ := hw
      show (some (nonPeriodicCompare P wn (.nonPeriodic wn) (1 / 100)) : Option _) =
        some (.ok true)
      congr 1
      simp only [nonPeriodicCompare]
      rw [max_self, nonPeriodicGetResampledVersion_self P hid wn hne hin hδ]
      simp only []
      rw [if_neg (fun h2 => h2 rfl), rmseLt_self]

/-- Witness for C10: the single-sample periodic waveform `pwSelf` compares
equal to itself. -/
theorem compare_self_true_witness :
    waveformCompare idPrims 1 (.periodic pwSelf) (.periodic pwSelf) (1 / 100) =
      some (.ok true) :=
  compare_self_true idPrims (fun _ => rfl) (.periodic pwSelf) 0
    ⟨by simp [pwSelf], by intro x hx; simp [pwSelf] at hx; simp [hx]; norm_num, by
      norm_num [pwSelf]⟩

/-- Once the selection loop holds a best candidate it never comes back
empty. -/
theorem selectGo_some_ne_none (data : List ℚ) :
    ∀ (l : List ℕ) (q : ℕ), selectGo data l (some q) ≠ Option.none
  | [], q => by simp [selectGo]
  | p :: r, q => by
      simp only [selectGo]
      split
      · exact selectGo_some_ne_none data r q
      · split
        · simp
        · split
          · exact selectGo_some_ne_none data r p
          · exact selectGo_some_ne_none data r q

/-- The selection loop comes back empty exactly when every candidate is
skipped for offering fewer than 3 cycles. -/
theorem selectGo_none_iff (data : List ℚ) :
    ∀ (l : List ℕ),
      selectGo data l Option.none = Option.none ↔ ∀ p ∈ l, data.length / p < 3
  | [] => by simp [selectGo]
  | p :: r => by
      simp only [selectGo]
      by_cases hskip : data.length / p < 3
      · rw [if_pos hskip, selectGo_none_iff data r]
        constructor
        · intro h p2 hp2
          rcases List.mem_cons.mp hp2 with rfl | hp3
          · exact hskip
          · exact h p2 hp3
        · intro h p2 hp2
          exact h p2 (List.mem_cons_of_mem p hp2)
      · rw [if_neg hskip]
        constructor
        · intro h
          by_cases hrel : relVar data p < 11 / 50
          · rw [if_pos hrel] at h
            cases h
          · rw [if_neg hrel] at h
            exact absurd h (selectGo_some_ne_none data r p)
        · intro h
          exact absurd (h p (List.mem_cons_self p r)) hskip

/-- The source's break-or-track-best loop computes exactly the claim's
description: first candidate under the threshold, else the first candidate
attaining the minimal `rel_var`, threaded through an optional incoming
best. -/
theorem selectGo_eq_spec (data : List ℚ) :
    ∀ (l : List ℕ) (best : Option ℕ),
      selectGo data l best =
        match firstGood data (l.filter (fun p2 => decide (3 ≤ data.length / p2))) with
        | some u => some u
        | Option.none =>
            argminRel data (l.filter (fun p2 => decide (3 ≤ data.length / p2))) best
  | [], best => by simp [selectGo, firstGood, argminRel]
  | p :: r, best => by
      by_cases hskip : data.length / p < 3
      · have hpf : ¬ ((fun p2 => decide (3 ≤ data.length / p2)) p = true) := by
          simp only [decide_eq_true_eq]
          omega
        have hfcons : (p :: r).filter (fun p2 => decide (3 ≤ data.length / p2)) =
            r.filter (fun p2 => decide (3 ≤ data.length / p2)) :=
          List.filter_cons_of_neg hpf
        simp only [selectGo]
        rw [if_pos hskip, hfcons, selectGo_eq_spec data r best]
      · have hpf : (fun p2 => decide (3 ≤ data.length / p2)) p = true := by
          simp only [decide_eq_true_eq]
          omega
        have hfcons : (p :: r).filter (fun p2 => decide (3 ≤ data.length / p2)) =
            p :: r.filter (fun p2 => decide (3 ≤ data.length / p2)) :=
          List.filter_cons_of_pos hpf
        simp only [selectGo]
        rw [if_neg hskip, hfcons]
        by_cases hrel : relVar data p < 11 / 50
        · rw [if_pos hrel]
          have hfg : firstGood data
              (p :: r.filter (fun p2 => decide (3 ≤ data.length / p2))) = some p := by
            unfold firstGood
            exact List.find?_cons_of_pos _ (decide_eq_true hrel)
          rw [hfg]
        · rw [if_neg hrel]
          have hfg : firstGood data
              (p :: r.filter (fun p2 => decide (3 ≤ data.length / p2))) =
              firstGood data (r.filter (fun p2 => decide (3 ≤ data.length / p2))) := by
            unfold firstGood
            exact List.find?_cons_of_neg _ (by simpa using hrel)
          rw [hfg]
          cases best with
          | none =>
              rw [selectGo_eq_spec data r (some p)]
              cases hf2 : firstGood data (r.filter (fun p2 => decide (3 ≤ data.length / p2))) with
              | some u => rfl
              | none => simp only [argminRel]
          | some q =>
              change (if relVar data p < relVar data q then selectGo data r (some p)
                else selectGo data r (some q)) = _
              by_cases hlt : relVar data p < relVar data q
              · rw [if_pos hlt, selectGo_eq_spec data r (some p)]
                cases hf2 : firstGood data
                    (r.filter (fun p2 => decide (3 ≤ data.length / p2))) with
                | some u => rfl
                | none =>
                    simp only [argminRel]
                    rw [if_pos hlt]
              · rw [if_neg hlt, selectGo_eq_spec data r (some q)]
                cases hf2 : firstGood data
                    (r.filter (fun p2 => decide (3 ≤ data.length / p2))) with
                | some u => rfl
                | none =>
                    simp only [argminRel]
                    rw [if_neg hlt]

/-- C7: the candidate-selection loop of the periodicity extraction examines
only the 12 smallest candidates, skips those with fewer than 3 full cycles,
short-circuits on the first `rel_var < 0.22`, otherwise takes the candidate
with globally minimal `rel_var` among those evaluated — i.e. it equals the
spec-side `selectBestPeriodSpec` — and `get_periodic_equivalent_waveform`
raises the no-consistent-period error exactly when every candidate was
skipped. -/
theorem period_selection_matches_spec (data : List ℚ) (cands : List ℕ) (P : Prims)
    (w : NonPeriodicWaveform) :
    selectGo data (cands.take 12) Option.none = selectBestPeriodSpec data cands ∧
    (selectGo data (cands.take 12) Option.none = Option.none ↔
      ∀ p ∈ cands.take 12, data.length / p < 3) ∧
    (300 ≤ w.data.length → peqPeaks P w ≠ [] →
      (getPeriodicEquivalentWaveform P w = .error .noConsistentPeriod ↔
        ∀ p ∈ (peqCandidates P w).take 12, w.data.length / p < 3)) := by
  refine ⟨?_, selectGo_none_iff data _, ?_⟩
  · rw [selectGo_eq_spec data (cands.take 12) Option.none]
    unfold selectBestPeriodSpec candEvaluated
    rfl
  · intro hlen hpeaks
    have hif1 : ¬ (w.data.length < 300) := by omega
    have hif2 : ¬ ((peqPeaks P w).length = 0) := by
      simpa [List.length_eq_zero] using hpeaks
    constructor
    · intro h
      simp only [getPeriodicEquivalentWaveform] at h
      rw [if_neg hif1, if_neg hif2] at h
      cases hsel : selectGo w.data ((peqCandidates P w).take 12) Option.none with
      | none => exact (selectGo_none_iff w.data _).mp hsel
      | some bp =>
          rw [hsel] at h
          rcases mkCustomPeriodicWaveform_error _ _ _ _ _ _ h with h2 | ⟨lo, hi, h2⟩ <;>
            cases h2
    · intro h
      have hsel : selectGo w.data ((peqCandidates P w).take 12) Option.none = Option.none :=
        (selectGo_none_iff w.data _).mpr h
      simp only [getPeriodicEquivalentWaveform]
      rw [if_neg hif1, if_neg hif2, hsel]
